import Mathlib

/-!
A verification development for the vocalinux dictation pipeline
(`vocalinux-rs`).  The Rust sources are shallowly embedded: pure functions
become Lean functions over `List`/`String`/`ℤ`, stateful components become
explicit state-passing step functions.  Machine floats (`f32`) are modelled
by exact fractions (`Frac` below), with the division-by-zero NaN of an
empty audio chunk made explicit as `Option Frac` (`none` = NaN); every
claim settled here depends only on comparisons that are exact in this
reading.
-/

namespace Vocalinux

/-! ## Exact fractions

`ℚ` in this toolchain has irreducible arithmetic, so we use an unreduced
fraction representation whose operations compute by `decide`/`rfl`.  All
constructors used below keep the denominator positive. -/

/-- An unreduced fraction `num / den`; every value built below has
`den > 0`. -/
structure Frac where
  num : ℤ
  den : ℤ
  deriving DecidableEq

def Frac.ofInt (n : ℤ) : Frac := ⟨n, 1⟩

/-- `a < b`, valid whenever both denominators are positive. -/
def Frac.lt (a b : Frac) : Bool := decide (a.num * b.den < b.num * a.den)

/-- `a ≤ b`, valid whenever both denominators are positive. -/
def Frac.le (a b : Frac) : Bool := decide (a.num * b.den ≤ b.num * a.den)

def Frac.add (a b : Frac) : Frac := ⟨a.num * b.den + b.num * a.den, a.den * b.den⟩

/-- Division; keeps the denominator positive when `b.num > 0` (the only way
it is used below). -/
def Frac.div (a b : Frac) : Frac := ⟨a.num * b.den, a.den * b.num⟩

/-- `f32::max` on non-NaN values. -/
def Frac.fmax (a b : Frac) : Frac := if Frac.le a b then b else a

/-- `f32::min` on non-NaN values. -/
def Frac.fmin (a b : Frac) : Frac := if Frac.le a b then a else b

/-- Interpretation into `ℚ` (used only in statements and proofs). -/
def Frac.toRat (a : Frac) : ℚ := (a.num : ℚ) / (a.den : ℚ)

/-! ## Voice Activity Detector (src/audio/vad.rs)

`SAMPLE_RATE = 16000` (src/audio/mod.rs); samples are `i16`, modelled as
`ℤ`. -/

/-- State of `VoiceActivityDetector` (vad.rs lines 6-17).  `f32` fields are
modelled as `Frac`. -/
structure VadState where
  sensitivity : ℕ
  silenceTimeout : Frac
  silenceDuration : Frac
  speechDetected : Bool
  currentLevel : Frac
  deriving DecidableEq

/-- `u8::clamp(lo, hi)`. -/
def natClamp (x lo hi : ℕ) : ℕ := min (max x lo) hi

/-- `VoiceActivityDetector::new` (vad.rs 20-28): sensitivity clamped to
`[1,5]`, the timeout stored unclamped. -/
def vadNew (sensitivity : ℕ) (silenceTimeout : Frac) : VadState :=
  { sensitivity := natClamp sensitivity 1 5
    silenceTimeout := silenceTimeout
    silenceDuration := Frac.ofInt 0
    speechDetected := false
    currentLevel := Frac.ofInt 0 }

/-- `VoiceActivityDetector::threshold` (vad.rs 31-34):
`500.0 / (sensitivity as f32).max(1.0)`. -/
def threshold (st : VadState) : Frac :=
  Frac.div (Frac.ofInt 500) (Frac.fmax (Frac.ofInt st.sensitivity) (Frac.ofInt 1))

/-- Sum of absolute sample values
(`samples.iter().map(|&s| (s as i64).abs()).sum()`, vad.rs 42); exact in
`ℕ`. -/
def sumAbs (samples : List ℤ) : ℕ := samples.foldl (fun a s => a + s.natAbs) 0

/-- `sum as f32 / samples.len() as f32` (vad.rs 43).  For the empty chunk
this is `0.0 / 0.0 = NaN` in Rust, modelled as `none`. -/
def meanAmp (samples : List ℤ) : Option Frac :=
  if samples.isEmpty then none
  else some (Frac.div (Frac.ofInt (sumAbs samples)) (Frac.ofInt samples.length))

/-- `(mean_amplitude / 327.68).min(100.0)` (vad.rs 47).  Rust `f32::min`
returns the non-NaN argument, so the NaN mean yields level `100.0`.
(`327.68` is read exactly as `32768 / 100`.) -/
def levelOf : Option Frac → Frac
  | none => Frac.ofInt 100
  | some q => Frac.fmin (Frac.div q ⟨32768, 100⟩) (Frac.ofInt 100)

/-- `mean_amplitude < threshold` (vad.rs 52).  A NaN mean compares false. -/
def meanLt (m : Option Frac) (t : Frac) : Bool :=
  match m with
  | none => false
  | some q => Frac.lt q t

/-- `VoiceActivityDetector::process` (vad.rs 40-71).  Returns the updated
state together with the Rust return value: `some true` = silence timeout
reached (flush), `some false` = speech detected, `none` = still
accumulating silence. -/
def vadProcess (st : VadState) (samples : List ℤ) : VadState × Option Bool :=
  let m := meanAmp samples
  let st1 := { st with currentLevel := levelOf m }
  let dur := Frac.div (Frac.ofInt samples.length) (Frac.ofInt 16000)
  if meanLt m (threshold st1) then
    let st2 := { st1 with silenceDuration := Frac.add st1.silenceDuration dur }
    if Frac.lt st2.silenceTimeout st2.silenceDuration && st2.speechDetected then
      ({ st2 with silenceDuration := Frac.ofInt 0, speechDetected := false }, some true)
    else (st2, none)
  else
    ({ st1 with speechDetected := true, silenceDuration := Frac.ofInt 0 }, some false)

/-- `VoiceActivityDetector::reset` (vad.rs 74-77). -/
def vadReset (st : VadState) : VadState :=
  { st with silenceDuration := Frac.ofInt 0, speechDetected := false }

/-- Run `process` over a sequence of chunks, collecting the return values
in order. -/
def runVad (st : VadState) : List (List ℤ) → List (Option Bool)
  | [] => []
  | c :: cs =>
    let r := vadProcess st c
    r.2 :: runVad r.1 cs

/-! ## Command Processor (src/speech/command_processor.rs)

Strings are processed as `List Char`.  The inputs and command tables are
ASCII, for which the embeddings below of Rust's Unicode-aware
`to_lowercase`, `char::is_whitespace` and the `regex_lite` word boundary
`\b` are exact. -/

/-- ASCII lowering (agrees with Rust `str::to_lowercase` on ASCII). -/
def lowerChar (c : Char) : Char :=
  if 'A' ≤ c ∧ c ≤ 'Z' then Char.ofNat (c.toNat + 32) else c

/-- Regex word character `\w` = `[A-Za-z0-9_]`. -/
def isWordChar (c : Char) : Bool := c.isAlpha || c.isDigit || c = '_'

def wordOpt : Option Char → Bool
  | none => false
  | some c => isWordChar c

/-- Rust `char::is_whitespace` (the Unicode `White_Space` property). -/
def isWsChar (c : Char) : Bool :=
  let n := c.toNat
  n = 0x09 || n = 0x0A || n = 0x0B || n = 0x0C || n = 0x0D || n = 0x20 ||
  n = 0x85 || n = 0xA0 || n = 0x1680 || (0x2000 ≤ n && n ≤ 0x200A) ||
  n = 0x2028 || n = 0x2029 || n = 0x202F || n = 0x205F || n = 0x3000

/-- Does `s` start with `needle` (exact)? -/
def listStartsWith : List Char → List Char → Bool
  | [], _ => true
  | _ :: _, [] => false
  | a :: as_, b :: bs => a = b && listStartsWith as_ bs

/-- Does `s` start with `pat`, comparing case-insensitively (`(?i)`)? -/
def startsWithCI : List Char → List Char → Bool
  | [], _ => true
  | _ :: _, [] => false
  | p :: ps, c :: cs => lowerChar p = lowerChar c && startsWithCI ps cs

/-- Does the regex `(?i)\b<pat>\b` (with `pat` escaped, i.e. literal) match
at the current position of the haystack?  `prev` is the haystack character
immediately before the position (`none` at the start). -/
def matchesHere (pat : List Char) (prev : Option Char) (s : List Char) : Bool :=
  !pat.isEmpty && startsWithCI pat s &&
  (wordOpt prev != wordOpt s.head?) &&
  (wordOpt (s.take pat.length).getLast? != wordOpt (s.drop pat.length).head?)

/-- Left-to-right, non-overlapping replacement of `(?i)\b<pat>\b` by
`repl`, the semantics of `Regex::replace_all` for a literal pattern
(command_processor.rs 112-118).  `fuel` only forces termination; it is
always called with `fuel ≥ s.length`, which is enough since every step
consumes at least one haystack character. -/
def replAux (pat repl : List Char) : ℕ → Option Char → List Char → List Char
  | _, _, [] => []
  | 0, _, s => s
  | fuel + 1, prev, c :: rest =>
    if matchesHere pat prev (c :: rest) then
      repl ++ replAux pat repl fuel ((c :: rest).take pat.length).getLast?
        (List.drop pat.length (c :: rest))
    else c :: replAux pat repl fuel (some c) rest

def replaceAllWB (pat repl s : List Char) : List Char :=
  replAux pat repl s.length none s

/-- One iteration of the text-command loop: replace one registered phrase
(command_processor.rs 112-118). -/
def applyOne (acc : List Char) (e : String × String) : List Char :=
  replaceAllWB e.1.data e.2.data acc

/-- `result.split_whitespace()` (command_processor.rs 121-124): maximal
runs of non-whitespace, leading/trailing whitespace dropped.  `cur` holds
the current word reversed. -/
def splitWsAux (cur : List Char) : List Char → List (List Char)
  | [] => if cur.isEmpty then [] else [cur.reverse]
  | c :: cs =>
    if isWsChar c then
      if cur.isEmpty then splitWsAux [] cs else cur.reverse :: splitWsAux [] cs
    else splitWsAux (c :: cur) cs

/-- `.join(" ")`. -/
def joinSpace : List (List Char) → List Char
  | [] => []
  | [w] => w
  | w :: ws => w ++ ' ' :: joinSpace ws

/-- `result.split_whitespace().collect::<Vec<_>>().join(" ")`
(command_processor.rs 121-124). -/
def collapseWs (l : List Char) : List Char := joinSpace (splitWsAux [] l)

/-- Rust `str::trim`: drop whitespace from both ends. -/
def trimList (l : List Char) : List Char :=
  ((l.dropWhile isWsChar).reverse.dropWhile isWsChar).reverse

/-- Rust `str::contains` for a literal needle (substring containment). -/
def containsSub (needle : List Char) : List Char → Bool
  | [] => needle.isEmpty
  | c :: rest => listStartsWith needle (c :: rest) || containsSub needle rest

/-- The `text_commands` table in insertion order
(command_processor.rs 17-56).  The Rust `HashMap` iterates in an
unspecified order, so everything proved about the replacement pass is
quantified over permutations of this list. -/
def textCommandsList : List (String × String) :=
  [("period", "."), ("full stop", "."), ("comma", ","), ("question mark", "?"),
   ("exclamation mark", "!"), ("exclamation point", "!"), ("colon", ":"),
   ("semicolon", ";"), ("apostrophe", "'"), ("quote", "\""), ("open quote", "\""),
   ("close quote", "\""), ("open parenthesis", "("), ("close parenthesis", ")"),
   ("open bracket", "["), ("close bracket", "]"), ("hyphen", "-"), ("dash", "-"),
   ("underscore", "_"), ("at sign", "@"), ("hash", "#"), ("hashtag", "#"),
   ("dollar sign", "$"), ("percent", "%"), ("ampersand", "&"), ("asterisk", "*"),
   ("plus sign", "+"), ("equals sign", "="), ("slash", "/"), ("backslash", "\\"),
   ("new line", "\n"), ("newline", "\n"), ("new paragraph", "\n\n"), ("tab", "\t"),
   ("space", " ")]

/-- The `action_commands` vector (command_processor.rs 59-76). -/
def actionCommandsList : List String :=
  ["delete that", "scratch that", "undo", "undo that", "redo", "redo that",
   "select all", "copy", "copy that", "cut", "cut that", "paste", "paste that",
   "capitalize", "uppercase", "lowercase"]

/-- `text.to_lowercase()` (ASCII). -/
def lowerStr (s : String) : String := String.mk (s.data.map lowerChar)

/-- `cmd.replace(' ', "_")` (command_processor.rs 94). -/
def underscoreName (s : String) : String :=
  String.mk (s.data.map fun c => if c = ' ' then '_' else c)

/-- The action-scan loop (command_processor.rs 92-98): every action phrase
contained in the lowercased text, in command-table order, mapped to its
underscore-joined name. -/
def cpActions (text : String) : List String :=
  (actionCommandsList.filter fun cmd =>
    containsSub cmd.data (lowerStr text).data).map underscoreName

/-- The text-command pass (command_processor.rs 110-118) for a given
iteration order `ord` of the `text_commands` table. -/
def applyTextCommands (ord : List (String × String)) (l : List Char) : List Char :=
  ord.foldl applyOne l

/-- `CommandProcessor::process` (command_processor.rs 87-127) with the
`HashMap` iteration order made explicit as `ord`. -/
def cpProcess (ord : List (String × String)) (text : String) : String × List String :=
  let textLower := lowerStr text
  let actions := cpActions text
  if !actions.isEmpty &&
      actionCommandsList.any (fun cmd => decide (trimList textLower.data = cmd.data)) then
    ("", actions)
  else
    (String.mk (collapseWs (applyTextCommands ord text.data)), actions)

/-- The four strings reachable from
`"Hello period How are you question mark"` under the replacement pass; the
flags record whether the `"period"` and `"question mark"` replacements have
fired. -/
def c8St : Bool × Bool → List Char
  | (false, false) => "Hello period How are you question mark".data
  | (true, false) => "Hello . How are you question mark".data
  | (false, true) => "Hello period How are you ?".data
  | (true, true) => "Hello . How are you ?".data

def c8Next (v : Bool × Bool) (e : String × String) : Bool × Bool :=
  (v.1 || decide (e.1 = "period"), v.2 || decide (e.1 = "question mark"))

/-- Exhaustive check that every registered phrase acts on the four
reachable strings exactly as `c8Next` predicts (all phrases other than
`"period"` and `"question mark"` leave them unchanged). -/
def c8Check : Bool :=
  textCommandsList.all fun e =>
    [(false, false), (true, false), (false, true), (true, true)].all fun v =>
      decide (applyOne (c8St v) e = c8St (c8Next v e))

/-- The two strings reachable from
`"First line new line Second line"` under the replacement pass; the flag
records whether the `"new line"` replacement has fired. -/
def c1St : Bool → List Char
  | false => "First line new line Second line".data
  | true => "First line \n Second line".data

def c1Next (v : Bool) (e : String × String) : Bool := v || decide (e.1 = "new line")

/-- Exhaustive check that every registered phrase acts on the two
reachable strings exactly as `c1Next` predicts. -/
def c1Check : Bool :=
  textCommandsList.all fun e =>
    [false, true].all fun v => decide (applyOne (c1St v) e = c1St (c1Next v e))

/-- Exhaustive check that no registered phrase matches inside
`"newlinetest"` (word-boundary safety). -/
def c1NoMatchCheck : Bool :=
  textCommandsList.all fun e =>
    decide (applyOne "newlinetest".data e = "newlinetest".data)

/-! ## Realtime client downlink (src/speech/soniox.rs)

Only the fields of a wire token that `run_connection` reads (`text`,
`is_final`) are modelled; the timing/confidence/speaker/language metadata
is never consulted by the decode loop. -/

structure SonioxToken where
  text : String
  isFinal : Bool
  deriving DecidableEq

structure SonioxResponse where
  tokens : List SonioxToken
  errorCode : Option ℕ
  errorMessage : Option String
  deriving DecidableEq

/-- `SonioxResult` (soniox.rs 67-76). -/
inductive SonioxResult where
  | Partial (text : String)
  | Final (text : String)
  | Error (msg : String)
  | Closed
  deriving DecidableEq

/-- Concatenation of the final-tagged token texts, in order
(soniox.rs 291-297). -/
def finalConcat (toks : List SonioxToken) : String :=
  toks.foldl (fun acc t => if t.isFinal then acc ++ t.text else acc) ""

/-- Concatenation of the non-final token texts, in order
(soniox.rs 291-297). -/
def nonFinalConcat (toks : List SonioxToken) : String :=
  toks.foldl (fun acc t => if t.isFinal then acc else acc ++ t.text) ""

/-- Decoding of one inbound response (soniox.rs 276-313).  `prevText` is
the `current_partial` accumulator; the returned `Bool` is true when the
loop `break`s (error response).  Events are returned in emission order. -/
def processResponse (prevText : String) (resp : SonioxResponse) :
    String × List SonioxResult × Bool :=
  match resp.errorCode with
  | some code =>
    let msg := match resp.errorMessage with
      | some m => m
      | none => "Error code: " ++ toString code
    (prevText, [SonioxResult.Error msg], true)
  | none =>
    let finalText := finalConcat resp.tokens
    let curText := nonFinalConcat resp.tokens
    let finalEvents := if !finalText.isEmpty then [SonioxResult.Final finalText] else []
    if curText ≠ prevText then
      (curText,
       finalEvents ++ (if !curText.isEmpty then [SonioxResult.Partial curText] else []),
       false)
    else (prevText, finalEvents, false)

/-- The downlink loop over a sequence of decoded responses: runs until an
error response breaks the loop (or responses are exhausted), then emits
`Closed` (soniox.rs 272-334). -/
def runDownlink (prevText : String) : List SonioxResponse → List SonioxResult
  | [] => [SonioxResult.Closed]
  | r :: rs =>
    let p := processResponse prevText r
    if p.2.2 then p.2.1 ++ [SonioxResult.Closed]
    else p.2.1 ++ runDownlink p.1 rs

/-! ## Speech Manager (src/speech/manager.rs)

The manager's control-plane (`start`/`stop`) is sequential code over
shared state; it is embedded as explicit state passing.  The spawned
worker loops do not run inside `start`, so only the session resources they
would use (the stored Soniox client, the audio capture stream) are
tracked.  External failures (websocket connect, audio device/stream open,
offline model load) are abstracted by an `Env` of outcomes. -/

/-- `RecognitionState` (manager.rs 26-31). -/
inductive RecognitionState where
  | Idle
  | Listening
  | Processing
  | Error
  deriving DecidableEq

/-- `SpeechResult` (manager.rs 35-48); the `f32` audio level is a `Frac`. -/
inductive SpeechResult where
  | Partial (text : String)
  | Final (text : String)
  | Action (name : String)
  | StateChange (state : RecognitionState)
  | AudioLevel (level : Frac)
  | Error (message : String)
  deriving DecidableEq

/-- `SpeechEngine` (config/mod.rs). -/
inductive SpeechEngine where
  | Vosk
  | Whisper
  | Soniox
  deriving DecidableEq

/-- The slice of `AppConfig` that `start()` consults. -/
structure AppConfigM where
  engine : SpeechEngine
  sonioxApiKey : Option String
  deriving DecidableEq

/-- Errors surfaced by `start()` (anyhow contexts in the source, named
after the spec's taxonomy).  `ConfigurationError` is the
"Soniox API key not configured" failure (manager.rs 138-142). -/
inductive StartError where
  | ConfigurationError
  | ConnectionError
  | EngineUnavailable
  | AudioError
  deriving DecidableEq

/-- Outcomes of the external operations `start()` performs. -/
structure Env where
  sonioxConnectOk : Bool
  engineLoadOk : Bool
  audioStartOk : Bool
  deriving DecidableEq

/-- Observable state of one `SpeechManager` (manager.rs 54-73): the
`is_running` flag, the `state` mutex, whether a Soniox client is stored,
whether audio capture is running, and the events pushed into the result
channel (modelled as an append-only list; the channel is never full in
this model, so every `try_send` appends). -/
structure ManagerState where
  isRunning : Bool
  state : RecognitionState
  sonioxClient : Bool
  audioRunning : Bool
  events : List SpeechResult
  deriving DecidableEq

/-- `SpeechManager::new` (manager.rs 76-93). -/
def initialManager : ManagerState :=
  { isRunning := false, state := RecognitionState.Idle, sonioxClient := false
    audioRunning := false, events := [] }

/-- `SpeechManager::set_state` (manager.rs 106-109). -/
def mgrSetState (m : ManagerState) (s : RecognitionState) : ManagerState :=
  { m with state := s, events := m.events ++ [SpeechResult.StateChange s] }

/-- `SpeechManager::start_soniox` (manager.rs 137-157): fails without an
API key before touching anything; otherwise connects (storing the client)
and starts audio capture.  The two spawned forwarding threads are outside
the control-plane model. -/
def startSoniox (env : Env) (m : ManagerState) (cfg : AppConfigM) :
    ManagerState × Except StartError Unit :=
  match cfg.sonioxApiKey with
  | none => (m, Except.error StartError.ConfigurationError)
  | some _ =>
    if env.sonioxConnectOk then
      let m1 := { m with sonioxClient := true }
      if env.audioStartOk then ({ m1 with audioRunning := true }, Except.ok ())
      else (m1, Except.error StartError.AudioError)
    else (m, Except.error StartError.ConnectionError)

/-- `SpeechManager::start_vosk` / `start_whisper` control plane
(manager.rs 215-228 / 309-322): lazily construct the engine, then start
audio capture; the recognition thread is modelled separately
(`runOfflineLoop`). -/
def startOffline (env : Env) (m : ManagerState) : ManagerState × Except StartError Unit :=
  if env.engineLoadOk then
    if env.audioStartOk then ({ m with audioRunning := true }, Except.ok ())
    else (m, Except.error StartError.AudioError)
  else (m, Except.error StartError.EngineUnavailable)

/-- `SpeechManager::start` (manager.rs 112-134): early-return `Ok` when
already running; otherwise set `is_running`, flip to `Listening` (emitting
the `StateChange`), and dispatch on the configured engine.  Note that a
dispatch failure propagates with `?` and nothing is rolled back. -/
def startManager (env : Env) (m : ManagerState) (cfg : AppConfigM) :
    ManagerState × Except StartError Unit :=
  if m.isRunning then (m, Except.ok ())
  else
    let m1 := mgrSetState { m with isRunning := true } RecognitionState.Listening
    match cfg.engine with
    | SpeechEngine.Soniox => startSoniox env m1 cfg
    | SpeechEngine.Vosk => startOffline env m1
    | SpeechEngine.Whisper => startOffline env m1

/-- `SpeechManager::stop` (manager.rs 394-411): early-return when not
running; otherwise clear `is_running`, stop audio, drop/disconnect the
Soniox client and set state to `Idle` (emitting the `StateChange`). -/
def stopManager (m : ManagerState) : ManagerState :=
  if !m.isRunning then m
  else
    mgrSetState
      { m with isRunning := false, audioRunning := false, sonioxClient := false }
      RecognitionState.Idle

/-! ## Offline recognition loop (manager.rs 241-302 / 335-388)

One iteration per received chunk.  The opaque offline engine is a
parameter `recognize`; the shared command processor's `HashMap` order is a
parameter `ord`. -/

structure LoopState where
  vad : VadState
  buffer : List ℤ
  deriving DecidableEq

/-- The audio level a chunk leaves in the VAD (vad.rs 47). -/
def chunkLevel (c : List ℤ) : Frac := levelOf (meanAmp c)

/-- Events emitted while processing a flushed buffer
(manager.rs 256-286). -/
def flushEvents (ord : List (String × String)) (recognize : List ℤ → Except String String)
    (buffer : List ℤ) : List SpeechResult :=
  match recognize buffer with
  | Except.ok t =>
    if !t.isEmpty then
      let r := cpProcess ord t
      (if !r.1.isEmpty then [SpeechResult.Final r.1] else []) ++
        r.2.map SpeechResult.Action
    else []
  | Except.error _ => []

/-- One loop iteration upon receiving a chunk (manager.rs 247-297): emit
the current VAD level, run the VAD, and either flush the buffer through
the engine (silence timeout), or append the chunk to the buffer. -/
def loopStep (ord : List (String × String)) (recognize : List ℤ → Except String String)
    (ls : LoopState) (c : List ℤ) : LoopState × List SpeechResult :=
  let levelEv := [SpeechResult.AudioLevel ls.vad.currentLevel]
  let r := vadProcess ls.vad c
  match r.2 with
  | some true =>
    if !ls.buffer.isEmpty then
      (⟨r.1, []⟩,
       levelEv ++ [SpeechResult.StateChange RecognitionState.Processing] ++
         flushEvents ord recognize ls.buffer ++
         [SpeechResult.StateChange RecognitionState.Listening])
    else (⟨r.1, ls.buffer⟩, levelEv)
  | _ => (⟨r.1, ls.buffer ++ c⟩, levelEv)

/-- The recognition loop over a finite chunk sequence, collecting emitted
events in order. -/
def runOfflineLoop (ord : List (String × String))
    (recognize : List ℤ → Except String String) (ls : LoopState) :
    List (List ℤ) → List SpeechResult
  | [] => []
  | c :: cs =>
    let r := loopStep ord recognize ls c
    r.2 ++ runOfflineLoop ord recognize r.1 cs

/-- The payload of an `AudioLevel` event, if any. -/
def levelProj : SpeechResult → Option Frac
  | SpeechResult.AudioLevel q => some q
  | _ => none

/-- The `AudioLevel` payloads of an event stream, in order. -/
def extractLevels (evs : List SpeechResult) : List Frac :=
  evs.filterMap levelProj

/-! # Theorems -/

/-! ## Replacement-pass order invariance

The Rust `HashMap` iterates in an unspecified order, so facts about the
text-command pass are proved for every permutation of the table: we
exhibit a finite state space closed under every registered replacement and
fold over an arbitrary ordering. -/

theorem foldl_applyOne_invariant {σ : Type} (st : σ → List Char)
    (next : σ → (String × String) → σ)
    (hcheck : ∀ e ∈ textCommandsList, ∀ v : σ, applyOne (st v) e = st (next v e)) :
    ∀ (l : List (String × String)) (v : σ), (∀ e ∈ l, e ∈ textCommandsList) →
      l.foldl applyOne (st v) = st (l.foldl next v) := by
  intro l
  induction l with
  | nil => intro v _; rfl
  | cons e es ih =>
    intro v hsub
    have he : e ∈ textCommandsList := hsub e (List.mem_cons_self _ _)
    have hes : ∀ x ∈ es, x ∈ textCommandsList := fun x hx => hsub x (List.mem_cons_of_mem _ hx)
    simp only [List.foldl_cons]
    rw [hcheck e he v]
    exact ih (next v e) hes

theorem c8Check_true : c8Check = true := by decide

theorem c8_applyOne : ∀ e ∈ textCommandsList, ∀ v : Bool × Bool,
    applyOne (c8St v) e = c8St (c8Next v e) := by
  intro e he v
  obtain ⟨a, b⟩ := v
  have hv : (a, b) ∈ [(false, false), (true, false), (false, true), (true, true)] := by
    cases a <;> cases b <;> simp
  exact of_decide_eq_true (List.all_eq_true.mp (List.all_eq_true.mp c8Check_true e he) _ hv)

theorem foldl_c8Next (l : List (String × String)) (v : Bool × Bool) :
    l.foldl c8Next v =
      (v.1 || l.any fun e => decide (e.1 = "period"),
       v.2 || l.any fun e => decide (e.1 = "question mark")) := by
  induction l generalizing v with
  | nil => simp
  | cons e es ih => simp [c8Next, ih, Bool.or_assoc]

/-- C8: on input `"Hello period How are you question mark"` the command
processor returns display text `"Hello . How are you ?"` and no actions,
for every iteration order of the replacement table. -/
theorem cp_punctuation_example (ord : List (String × String))
    (h : ord.Perm textCommandsList) :
    cpProcess ord "Hello period How are you question mark" =
      ("Hello . How are you ?", []) := by
  have hsub : ∀ e ∈ ord, e ∈ textCommandsList := fun e he => h.subset he
  have hfold := foldl_applyOne_invariant c8St c8Next c8_applyOne ord (false, false) hsub
  have hanyp : (ord.any fun e => decide (e.1 = "period")) = true :=
    List.any_eq_true.mpr ⟨("period", "."), h.mem_iff.mpr (by decide), by decide⟩
  have hanyq : (ord.any fun e => decide (e.1 = "question mark")) = true :=
    List.any_eq_true.mpr ⟨("question mark", "?"), h.mem_iff.mpr (by decide), by decide⟩
  have hact : cpActions "Hello period How are you question mark" = [] := by decide
  have happ : applyTextCommands ord "Hello period How are you question mark".data =
      c8St (true, true) := by
    show ord.foldl applyOne (c8St (false, false)) = _
    rw [hfold, foldl_c8Next]
    simp [hanyp, hanyq]
  simp only [cpProcess, hact, applyTextCommands] at happ ⊢
  rw [happ]
  decide

theorem cp_punctuation_example_witness :
    cpProcess textCommandsList "Hello period How are you question mark" =
      ("Hello . How are you ?", []) :=
  cp_punctuation_example textCommandsList (List.Perm.refl _)

theorem c1Check_true : c1Check = true := by decide

theorem c1NoMatchCheck_true : c1NoMatchCheck = true := by decide

theorem c1_applyOne : ∀ e ∈ textCommandsList, ∀ v : Bool,
    applyOne (c1St v) e = c1St (c1Next v e) := by
  intro e he v
  have hv : v ∈ [false, true] := by cases v <;> simp
  exact of_decide_eq_true (List.all_eq_true.mp (List.all_eq_true.mp c1Check_true e he) _ hv)

theorem foldl_c1Next (l : List (String × String)) (v : Bool) :
    l.foldl c1Next v = (v || l.any fun e => decide (e.1 = "new line")) := by
  induction l generalizing v with
  | nil => simp
  | cons e es ih => simp [c1Next, ih, Bool.or_assoc]

/-- C1: the `"new line"` phrase is replaced by `'\n'`, but the final
whitespace collapse (`split_whitespace().join(" ")`) destroys that
newline: on `"First line new line Second line"` the display text is
`"First line Second line"` with no newline character, for every iteration
order — contradicting the code's own `test_new_line`.  Word-boundary
safety does hold: `"newlinetest"` is returned unchanged. -/
theorem cp_newline_collapsed_bug (ord : List (String × String))
    (h : ord.Perm textCommandsList) :
    cpProcess ord "First line new line Second line" = ("First line Second line", [])
    ∧ ¬ '\n' ∈ (cpProcess ord "First line new line Second line").1.data
    ∧ cpProcess ord "newlinetest" = ("newlinetest", []) := by
  have hsub : ∀ e ∈ ord, e ∈ textCommandsList := fun e he => h.subset he
  have hfold := foldl_applyOne_invariant c1St c1Next c1_applyOne ord false hsub
  have hany : (ord.any fun e => decide (e.1 = "new line")) = true :=
    List.any_eq_true.mpr ⟨("new line", "\n"), h.mem_iff.mpr (by decide), by decide⟩
  have hact : cpActions "First line new line Second line" = [] := by decide
  have happ : applyTextCommands ord "First line new line Second line".data = c1St true := by
    show ord.foldl applyOne (c1St false) = _
    rw [hfold, foldl_c1Next]
    simp [hany]
  have h1 : cpProcess ord "First line new line Second line" =
      ("First line Second line", []) := by
    simp only [cpProcess, hact, applyTextCommands] at happ ⊢
    rw [happ]
    decide
  refine ⟨h1, ?_, ?_⟩
  · rw [h1]
    decide
  · have hfix : ∀ l : List (String × String), (∀ e ∈ l, e ∈ textCommandsList) →
        l.foldl applyOne "newlinetest".data = "newlinetest".data := by
      intro l
      induction l with
      | nil => intro _; rfl
      | cons e es ih =>
        intro hs
        have he : e ∈ textCommandsList := hs e (List.mem_cons_self _ _)
        have : applyOne "newlinetest".data e = "newlinetest".data :=
          of_decide_eq_true (List.all_eq_true.mp c1NoMatchCheck_true e he)
        simp only [List.foldl_cons, this]
        exact ih fun x hx => hs x (List.mem_cons_of_mem _ hx)
    have hact2 : cpActions "newlinetest" = [] := by decide
    have happ2 := hfix ord hsub
    simp only [cpProcess, hact2, applyTextCommands]
    rw [happ2]
    decide

theorem cp_newline_collapsed_bug_witness :
    cpProcess textCommandsList "First line new line Second line" =
      ("First line Second line", [])
    ∧ ¬ '\n' ∈ (cpProcess textCommandsList "First line new line Second line").1.data
    ∧ cpProcess textCommandsList "newlinetest" = ("newlinetest", []) :=
  cp_newline_collapsed_bug textCommandsList (List.Perm.refl _)

/-! ## VAD threshold (C6) and the empty chunk (C9) -/

theorem natClamp_pos (s : ℕ) : 1 ≤ natClamp s 1 5 :=
  le_min (le_max_right _ _) (by norm_num)

theorem threshold_vadNew (s : ℕ) (t : Frac) :
    threshold (vadNew s t) = ⟨500, (natClamp s 1 5 : ℤ)⟩ := by
  have h1 : 1 ≤ natClamp s 1 5 := natClamp_pos s
  simp only [threshold, vadNew, Frac.fmax, Frac.ofInt, Frac.le, Frac.div]
  split
  · next h =>
    have h' := of_decide_eq_true h
    have h2 : (natClamp s 1 5 : ℤ) = 1 := by omega
    simp [h2]
  · simp

/-- C6: the VAD energy threshold is antitone in the sensitivity on `1..5`
and strictly positive for every sensitivity (after clamping). -/
theorem vad_threshold_antitone_pos :
    (∀ (t : Frac) (s1 s2 : ℕ), 1 ≤ s1 → s1 ≤ s2 → s2 ≤ 5 →
      (threshold (vadNew s2 t)).toRat ≤ (threshold (vadNew s1 t)).toRat)
    ∧ ∀ (t : Frac) (s : ℕ), 0 < (threshold (vadNew s t)).toRat := by
  constructor
  · intro t s1 s2 _ h12 _
    rw [threshold_vadNew, threshold_vadNew]
    show ((500 : ℤ) : ℚ) / ((natClamp s2 1 5 : ℤ) : ℚ) ≤
      ((500 : ℤ) : ℚ) / ((natClamp s1 1 5 : ℤ) : ℚ)
    have hc1 : 1 ≤ natClamp s1 1 5 := natClamp_pos s1
    have hc2 : 1 ≤ natClamp s2 1 5 := natClamp_pos s2
    have hc12 : natClamp s1 1 5 ≤ natClamp s2 1 5 :=
      min_le_min (max_le_max h12 (le_refl 1)) (le_refl 5)
    have hp1 : (0 : ℚ) < ((natClamp s1 1 5 : ℤ) : ℚ) := by exact_mod_cast hc1
    have hp2 : (0 : ℚ) < ((natClamp s2 1 5 : ℤ) : ℚ) := by exact_mod_cast hc2
    rw [div_le_div_iff₀ hp2 hp1]
    have hle : ((natClamp s1 1 5 : ℤ) : ℚ) ≤ ((natClamp s2 1 5 : ℤ) : ℚ) := by
      exact_mod_cast hc12
    exact mul_le_mul_of_nonneg_left hle (by norm_num)
  · intro t s
    rw [threshold_vadNew]
    show (0 : ℚ) < ((500 : ℤ) : ℚ) / ((natClamp s 1 5 : ℤ) : ℚ)
    apply div_pos (by norm_num)
    have h1 := natClamp_pos s
    exact_mod_cast Nat.lt_of_lt_of_le Nat.zero_lt_one h1

theorem vad_threshold_antitone_pos_witness :
    (threshold (vadNew 4 (Frac.ofInt 2))).toRat ≤ (threshold (vadNew 2 (Frac.ofInt 2))).toRat
    ∧ 0 < (threshold (vadNew 3 (Frac.ofInt 2))).toRat :=
  ⟨vad_threshold_antitone_pos.1 (Frac.ofInt 2) 2 4 (by decide) (by decide) (by decide),
   vad_threshold_antitone_pos.2 (Frac.ofInt 2) 3⟩

/-- C9: on an empty sample slice the mean amplitude is `0/0` (NaN); the
`NaN < threshold` comparison is false, so the chunk takes the speech
branch: `process` returns `Some(false)`, sets `speech_detected`, zeroes
the accumulated silence (and leaves the level at `NaN.min(100.0) = 100`).
Consequently an empty chunk arms a later `Some(true)` flush, as the
concrete run shows. -/
theorem vad_empty_chunk_speech :
    (∀ st : VadState, vadProcess st [] =
      ({ st with currentLevel := Frac.ofInt 100, speechDetected := true,
                 silenceDuration := Frac.ofInt 0 }, some false))
    ∧ runVad (vadNew 3 ⟨1, 20000⟩) [[], [0]] = [some false, some true] :=
  ⟨fun _ => rfl, by decide⟩

/-! ## Speech Manager control plane (C2, C3) -/

/-- C2 counterexample: with the realtime backend configured and no stored
credential, `start()` from idle does return `ConfigurationError`, but the
claim's "observable state unchanged" part is false: `is_running()` is left
`true` and `state()` is left `Listening`. -/
theorem start_missing_key_claim_refuted :
    (startManager ⟨true, true, true⟩ initialManager
        ⟨SpeechEngine.Soniox, none⟩).2 = Except.error StartError.ConfigurationError
    ∧ ¬ ((startManager ⟨true, true, true⟩ initialManager
          ⟨SpeechEngine.Soniox, none⟩).1.isRunning = false
        ∧ (startManager ⟨true, true, true⟩ initialManager
            ⟨SpeechEngine.Soniox, none⟩).1.state = RecognitionState.Idle) :=
  ⟨rfl, by decide⟩

/-- C2 amended: a `start()` from idle with the realtime backend and no
stored credential fails with `ConfigurationError` and no session resource
is acquired (no client stored, no audio capture), but the failed start is
not rolled back: `is_running()` is left `true`, `state()` is left
`Listening`, and a `StateChange(Listening)` event has been emitted. -/
theorem start_missing_key_amended (env : Env) (m : ManagerState) (cfg : AppConfigM)
    (hrun : m.isRunning = false) (heng : cfg.engine = SpeechEngine.Soniox)
    (hkey : cfg.sonioxApiKey = none) :
    (startManager env m cfg).2 = Except.error StartError.ConfigurationError
    ∧ (startManager env m cfg).1.sonioxClient = m.sonioxClient
    ∧ (startManager env m cfg).1.audioRunning = m.audioRunning
    ∧ (startManager env m cfg).1.isRunning = true
    ∧ (startManager env m cfg).1.state = RecognitionState.Listening
    ∧ (startManager env m cfg).1.events =
        m.events ++ [SpeechResult.StateChange RecognitionState.Listening] := by
  simp [startManager, hrun, heng, startSoniox, hkey, mgrSetState]

theorem start_missing_key_amended_witness :
    (startManager ⟨true, true, true⟩ initialManager ⟨SpeechEngine.Soniox, none⟩).2 =
      Except.error StartError.ConfigurationError
    ∧ (startManager ⟨true, true, true⟩ initialManager
        ⟨SpeechEngine.Soniox, none⟩).1.sonioxClient = initialManager.sonioxClient
    ∧ (startManager ⟨true, true, true⟩ initialManager
        ⟨SpeechEngine.Soniox, none⟩).1.audioRunning = initialManager.audioRunning
    ∧ (startManager ⟨true, true, true⟩ initialManager
        ⟨SpeechEngine.Soniox, none⟩).1.isRunning = true
    ∧ (startManager ⟨true, true, true⟩ initialManager
        ⟨SpeechEngine.Soniox, none⟩).1.state = RecognitionState.Listening
    ∧ (startManager ⟨true, true, true⟩ initialManager
        ⟨SpeechEngine.Soniox, none⟩).1.events =
        initialManager.events ++ [SpeechResult.StateChange RecognitionState.Listening] :=
  start_missing_key_amended ⟨true, true, true⟩ initialManager
    ⟨SpeechEngine.Soniox, none⟩ rfl rfl rfl

/-- C3: `start()` while already running returns `Ok` and changes nothing
(single session remains, no state change, no event), and `stop()` while
not running changes nothing (no state change, no event). -/
theorem manager_start_stop_noop :
    (∀ (env : Env) (m : ManagerState) (cfg : AppConfigM), m.isRunning = true →
      startManager env m cfg = (m, Except.ok ()))
    ∧ ∀ m : ManagerState, m.isRunning = false → stopManager m = m := by
  constructor
  · intro env m cfg h
    simp [startManager, h]
  · intro m h
    simp [stopManager, h]

theorem manager_start_stop_noop_witness :
    startManager ⟨true, true, true⟩ ⟨true, RecognitionState.Listening, true, true, []⟩
        ⟨SpeechEngine.Soniox, none⟩ =
      (⟨true, RecognitionState.Listening, true, true, []⟩, Except.ok ())
    ∧ stopManager initialManager = initialManager :=
  ⟨manager_start_stop_noop.1 ⟨true, true, true⟩
      ⟨true, RecognitionState.Listening, true, true, []⟩ ⟨SpeechEngine.Soniox, none⟩ rfl,
   manager_start_stop_noop.2 initialManager rfl⟩

/-! ## Realtime downlink events (C4) -/

/-- C4 counterexample: a non-error response with one final token of
non-empty text and one non-final token (of empty text) emits only the
`Final` event — no `Partial` event carries the non-final token's text, so
the claim as stated fails. -/
theorem downlink_empty_nonfinal_refutes_claim :
    processResponse "" ⟨[⟨"hi", true⟩, ⟨"", false⟩], none, none⟩ =
      ("", [SonioxResult.Final "hi"], false)
    ∧ ¬ SonioxResult.Partial "" ∈
        (processResponse "" ⟨[⟨"hi", true⟩, ⟨"", false⟩], none, none⟩).2.1 := by
  decide

/-- C4 amended: a non-error response with exactly one final token of
non-empty text and one non-final token of non-empty text differing from
the previously emitted partial emits exactly one `Final` (the final text)
followed by exactly one `Partial` (the non-final text); and whenever a
response's concatenated non-final text equals the stored previous partial,
no `Partial` event is emitted for it. -/
theorem downlink_events_amended (prevText f p : String)
    (hf : f ≠ "") (hp : p ≠ "") (hne : p ≠ prevText) :
    processResponse prevText ⟨[⟨f, true⟩, ⟨p, false⟩], none, none⟩ =
      (p, [SonioxResult.Final f, SonioxResult.Partial p], false)
    ∧ ∀ (st : String) (toks : List SonioxToken), nonFinalConcat toks = st →
        ∀ e ∈ (processResponse st ⟨toks, none, none⟩).2.1, ∀ s, e ≠ SonioxResult.Partial s := by
  constructor
  · have hf' : f.isEmpty = false := by
      cases hh : f.isEmpty
      · rfl
      · exact absurd ((String.isEmpty_iff f).mp hh) hf
    have hp' : p.isEmpty = false := by
      cases hh : p.isEmpty
      · rfl
      · exact absurd ((String.isEmpty_iff p).mp hh) hp
    simp [processResponse, finalConcat, nonFinalConcat, String.empty_append, hf', hp', hne]
  · intro st toks hconcat e he s
    simp only [processResponse, hconcat] at he
    rw [if_neg (by simp)] at he
    split at he
    · simp only [List.mem_singleton] at he
      simp [he]
    · simp at he

theorem downlink_events_amended_witness :
    processResponse "" ⟨[⟨"hi", true⟩, ⟨"hel", false⟩], none, none⟩ =
      ("hel", [SonioxResult.Final "hi", SonioxResult.Partial "hel"], false) :=
  (downlink_events_amended "" "hi" "hel" (by decide) (by decide) (by decide)).1

/-! ## VAD temporal behaviour (C5) -/

/-- `process` has exactly three observable outcomes: speech (sets the
flag), silence without flush (preserves the flag), and flush (requires the
flag, then clears it). -/
theorem vadProcess_cases (st : VadState) (c : List ℤ) :
    ((vadProcess st c).2 = some false ∧ (vadProcess st c).1.speechDetected = true)
    ∨ ((vadProcess st c).2 = none ∧ (vadProcess st c).1.speechDetected = st.speechDetected)
    ∨ ((vadProcess st c).2 = some true ∧ st.speechDetected = true
        ∧ (vadProcess st c).1.speechDetected = false) := by
  simp only [vadProcess]
  split
  · split
    · next hc =>
      rw [Bool.and_eq_true] at hc
      exact Or.inr (Or.inr ⟨rfl, hc.2, rfl⟩)
    · exact Or.inr (Or.inl ⟨rfl, rfl⟩)
  · exact Or.inl ⟨rfl, rfl⟩

/-- A below-threshold chunk with no prior speech yields `None` and leaves
the flag clear. -/
theorem vadProcess_silent (st : VadState) (c : List ℤ)
    (hq : meanLt (meanAmp c) (threshold st) = true) (hs : st.speechDetected = false) :
    (vadProcess st c).2 = none ∧ (vadProcess st c).1.speechDetected = false := by
  simp only [vadProcess]
  split
  · split
    · next hc =>
      rw [Bool.and_eq_true] at hc
      have : st.speechDetected = true := hc.2
      rw [hs] at this
      exact absurd this (by simp)
    · exact ⟨rfl, hs⟩
  · next hq' => exact absurd hq hq'

theorem vadProcess_sensitivity (st : VadState) (c : List ℤ) :
    (vadProcess st c).1.sensitivity = st.sensitivity := by
  simp only [vadProcess]
  split
  · split
    · rfl
    · rfl
  · rfl

theorem threshold_congr (st st' : VadState) (h : st'.sensitivity = st.sensitivity) :
    threshold st' = threshold st := by
  simp [threshold, h]

/-- No flush can occur before some chunk was classified as speech. -/
theorem runVad_no_flush_before_speech :
    ∀ (chunks : List (List ℤ)) (st : VadState), st.speechDetected = false →
      ∀ i : ℕ, (runVad st chunks)[i]? = some (some true) →
        ∃ j : ℕ, j < i ∧ (runVad st chunks)[j]? = some (some false) := by
  intro chunks
  induction chunks with
  | nil => intro st _ i hi; simp [runVad] at hi
  | cons c cs ih =>
    intro st h i hi
    rcases vadProcess_cases st c with ⟨h2, _⟩ | ⟨h2, hsd⟩ | ⟨_, hst, _⟩
    · cases i with
      | zero => simp [runVad, h2] at hi
      | succ i' =>
        refine ⟨0, Nat.succ_pos _, ?_⟩
        simp [runVad, h2]
    · cases i with
      | zero => simp [runVad, h2] at hi
      | succ i' =>
        have hsd' : (vadProcess st c).1.speechDetected = false := by rw [hsd, h]
        have hi' : (runVad (vadProcess st c).1 cs)[i']? = some (some true) := by
          simpa [runVad] using hi
        obtain ⟨j, hj, hjv⟩ := ih (vadProcess st c).1 hsd' i' hi'
        refine ⟨j + 1, Nat.succ_lt_succ hj, ?_⟩
        simpa [runVad] using hjv
    · rw [h] at hst
      exact absurd hst (by simp)

/-- Between two flushes there is an intervening speech chunk. -/
theorem runVad_flush_gap :
    ∀ (chunks : List (List ℤ)) (st : VadState) (i k : ℕ), i < k →
      (runVad st chunks)[i]? = some (some true) →
      (runVad st chunks)[k]? = some (some true) →
      ∃ j : ℕ, i < j ∧ j < k ∧ (runVad st chunks)[j]? = some (some false) := by
  intro chunks
  induction chunks with
  | nil => intro st i k _ hi _; simp [runVad] at hi
  | cons c cs ih =>
    intro st i k hik hi hk
    obtain ⟨k', rfl⟩ : ∃ k', k = k' + 1 := ⟨k - 1, by omega⟩
    have hk' : (runVad (vadProcess st c).1 cs)[k']? = some (some true) := by
      simpa [runVad] using hk
    cases i with
    | zero =>
      have h0 : (vadProcess st c).2 = some true := by
        simpa [runVad] using hi
      have hsd : (vadProcess st c).1.speechDetected = false := by
        rcases vadProcess_cases st c with ⟨h2, _⟩ | ⟨h2, _⟩ | ⟨_, _, h3⟩
        · rw [h2] at h0; exact absurd h0 (by simp)
        · rw [h2] at h0; exact absurd h0 (by simp)
        · exact h3
      obtain ⟨j, hj, hjv⟩ := runVad_no_flush_before_speech cs (vadProcess st c).1 hsd k' hk'
      refine ⟨j + 1, Nat.succ_pos _, Nat.succ_lt_succ hj, ?_⟩
      simpa [runVad] using hjv
    | succ i' =>
      have hi' : (runVad (vadProcess st c).1 cs)[i']? = some (some true) := by
        simpa [runVad] using hi
      obtain ⟨j, hj1, hj2, hjv⟩ := ih (vadProcess st c).1 i' k' (by omega) hi' hk'
      refine ⟨j + 1, by omega, by omega, ?_⟩
      simpa [runVad] using hjv

/-- An all-silent sequence from a speech-free state never flushes. -/
theorem runVad_all_silent :
    ∀ (chunks : List (List ℤ)) (st : VadState), st.speechDetected = false →
      (∀ c ∈ chunks, meanLt (meanAmp c) (threshold st) = true) →
      ∀ i : ℕ, ¬ (runVad st chunks)[i]? = some (some true) := by
  intro chunks
  induction chunks with
  | nil => intro st _ _ i; simp [runVad]
  | cons c cs ih =>
    intro st h hall i
    have hc := hall c (List.mem_cons_self _ _)
    have hsil := vadProcess_silent st c hc h
    cases i with
    | zero => simp [runVad, hsil.1]
    | succ i' =>
      intro hcon
      have hth : threshold (vadProcess st c).1 = threshold st :=
        threshold_congr _ _ (vadProcess_sensitivity st c)
      have hall' : ∀ x ∈ cs, meanLt (meanAmp x) (threshold (vadProcess st c).1) = true := by
        intro x hx
        rw [hth]
        exact hall x (List.mem_cons_of_mem _ hx)
      exact ih (vadProcess st c).1 hsil.2 hall' i' (by simpa [runVad] using hcon)

/-- C5: starting from construction or `reset()` (a state with
`speech_detected = false`), `Some(true)` (flush) is never returned unless
a strictly earlier call returned `Some(false)` (speech); if every chunk's
mean amplitude is below the threshold, no flush ever occurs; and two
flushes always have an intervening speech return. -/
theorem vad_flush_requires_speech (st : VadState) (hst : st.speechDetected = false)
    (chunks : List (List ℤ)) :
    (∀ i : ℕ, (runVad st chunks)[i]? = some (some true) →
      ∃ j : ℕ, j < i ∧ (runVad st chunks)[j]? = some (some false))
    ∧ ((∀ c ∈ chunks, meanLt (meanAmp c) (threshold st) = true) →
      ∀ i : ℕ, ¬ (runVad st chunks)[i]? = some (some true))
    ∧ (∀ i k : ℕ, i < k → (runVad st chunks)[i]? = some (some true) →
      (runVad st chunks)[k]? = some (some true) →
      ∃ j : ℕ, i < j ∧ j < k ∧ (runVad st chunks)[j]? = some (some false)) :=
  ⟨runVad_no_flush_before_speech chunks st hst,
   runVad_all_silent chunks st hst,
   fun i k => runVad_flush_gap chunks st i k⟩

theorem vad_flush_requires_speech_witness :
    ∃ j : ℕ, j < 1 ∧ (runVad (vadNew 5 ⟨1, 20000⟩) [[20000], [0]])[j]? = some (some false) :=
  (vad_flush_requires_speech (vadNew 5 ⟨1, 20000⟩) rfl [[20000], [0]]).1 1 (by decide)

/-! ## Action-command detection (C7) -/

theorem cpProcess_snd (ord : List (String × String)) (text : String) :
    (cpProcess ord text).2 = cpActions text := by
  simp only [cpProcess]
  split
  · rfl
  · rfl

theorem containsSub_nil_needle (hay : List Char) : containsSub [] hay = true := by
  cases hay <;> simp [containsSub, listStartsWith]

theorem listStartsWith_append (v w : List Char) : listStartsWith v (v ++ w) = true := by
  induction v with
  | nil => rfl
  | cons a as_ ih => simp [listStartsWith, ih]

theorem containsSub_append (u v w : List Char) : containsSub v (u ++ (v ++ w)) = true := by
  induction u with
  | nil =>
    cases v with
    | nil => exact containsSub_nil_needle _
    | cons a as_ =>
      simp only [containsSub, Bool.or_eq_true]
      exact Or.inl (listStartsWith_append (a :: as_) w)
  | cons b bs ih => simp [containsSub, ih]

/-- `trim` returns an infix: `l = ws ++ (trim l ++ ws)`. -/
theorem trimList_infix (l : List Char) : ∃ u w, l = u ++ (trimList l ++ w) := by
  refine ⟨l.takeWhile isWsChar,
    ((l.dropWhile isWsChar).reverse.takeWhile isWsChar).reverse, ?_⟩
  conv_lhs => rw [← List.takeWhile_append_dropWhile (p := isWsChar) (l := l)]
  congr 1
  conv_lhs =>
    rw [← List.reverse_reverse (l.dropWhile isWsChar),
      ← List.takeWhile_append_dropWhile (p := isWsChar)
        (l := (l.dropWhile isWsChar).reverse)]
  rw [List.reverse_append]
  rfl

/-- C7: if the trimmed lowercased text equals an action phrase exactly, the
display text is emptied; every action phrase contained in the lowercased
text contributes its underscore-joined name to the action list; and when
no exact match occurs the display text is exactly the replacement-pass
output (the surrounding literal text survives). -/
theorem cp_action_detection (ord : List (String × String)) (text cmd : String)
    (hc : cmd ∈ actionCommandsList) :
    (containsSub cmd.data (lowerStr text).data = true →
      underscoreName cmd ∈ (cpProcess ord text).2)
    ∧ (trimList (lowerStr text).data = cmd.data → (cpProcess ord text).1 = "")
    ∧ ((∀ c ∈ actionCommandsList, ¬ trimList (lowerStr text).data = c.data) →
      (cpProcess ord text).1 = String.mk (collapseWs (applyTextCommands ord text.data))) := by
  refine ⟨?_, ?_, ?_⟩
  · intro hcont
    rw [cpProcess_snd]
    exact List.mem_map_of_mem _ (List.mem_filter.mpr ⟨hc, hcont⟩)
  · intro htrim
    have hcont : containsSub cmd.data (lowerStr text).data = true := by
      obtain ⟨u, w, hl⟩ := trimList_infix (lowerStr text).data
      rw [htrim] at hl
      rw [hl]
      exact containsSub_append u _ w
    have hmem : underscoreName cmd ∈ cpActions text :=
      List.mem_map_of_mem _ (List.mem_filter.mpr ⟨hc, hcont⟩)
    have hie : (cpActions text).isEmpty = false := by
      cases hcase : cpActions text with
      | nil => rw [hcase] at hmem; exact absurd hmem (List.not_mem_nil _)
      | cons a l => rfl
    have hany : (actionCommandsList.any fun c =>
        decide (trimList (lowerStr text).data = c.data)) = true :=
      List.any_eq_true.mpr ⟨cmd, hc, by rw [htrim]; simp⟩
    simp [cpProcess, hie, hany]
  · intro hnone
    have hany : (actionCommandsList.any fun c =>
        decide (trimList (lowerStr text).data = c.data)) = false := by
      rw [List.any_eq_false]
      intro c hcm
      simpa using hnone c hcm
    simp [cpProcess, hany]

theorem cp_action_detection_witness :
    underscoreName "delete that" ∈ (cpProcess textCommandsList "delete that").2
    ∧ (cpProcess textCommandsList "delete that").1 = "" :=
  ⟨(cp_action_detection textCommandsList "delete that" "delete that" (by decide)).1
      (by decide),
   (cp_action_detection textCommandsList "delete that" "delete that" (by decide)).2.1
      (by decide)⟩

/-! ## Offline-loop audio levels (C10) -/

theorem vadProcess_currentLevel (st : VadState) (c : List ℤ) :
    (vadProcess st c).1.currentLevel = chunkLevel c := by
  simp only [vadProcess, chunkLevel]
  split
  · split
    · rfl
    · rfl
  · rfl

theorem flushEvents_no_levels (ord : List (String × String))
    (recognize : List ℤ → Except String String) (buffer : List ℤ) :
    List.filterMap levelProj (flushEvents ord recognize buffer) = [] := by
  simp only [flushEvents]
  split
  · split
    · simp [List.filterMap_append, List.filterMap_map, levelProj]
    · rfl
  · rfl

theorem extractLevels_append (a b : List SpeechResult) :
    extractLevels (a ++ b) = extractLevels a ++ extractLevels b := by
  simp [extractLevels, List.filterMap_append]

theorem loopStep_levels (ord : List (String × String))
    (recognize : List ℤ → Except String String) (ls : LoopState) (c : List ℤ) :
    extractLevels (loopStep ord recognize ls c).2 = [ls.vad.currentLevel]
    ∧ (loopStep ord recognize ls c).1.vad.currentLevel = chunkLevel c := by
  simp only [loopStep]
  split
  · split
    · refine ⟨?_, vadProcess_currentLevel ls.vad c⟩
      simp [extractLevels, List.filterMap_append, levelProj, flushEvents_no_levels]
    · exact ⟨rfl, vadProcess_currentLevel ls.vad c⟩
  · exact ⟨rfl, vadProcess_currentLevel ls.vad c⟩

theorem runOfflineLoop_levels (ord : List (String × String))
    (recognize : List ℤ → Except String String) :
    ∀ (chunks : List (List ℤ)) (ls : LoopState),
      extractLevels (runOfflineLoop ord recognize ls chunks) =
        (ls.vad.currentLevel :: chunks.map chunkLevel).take chunks.length := by
  intro chunks
  induction chunks with
  | nil => intro ls; rfl
  | cons c cs ih =>
    intro ls
    have hs := loopStep_levels ord recognize ls c
    simp only [runOfflineLoop]
    rw [extractLevels_append, hs.1, ih (loopStep ord recognize ls c).1, hs.2]
    simp

/-- C10: in the offline recognition loop the `AudioLevel` event emitted on
receiving chunk `N` carries the level the VAD computed from chunk `N-1`
(the level is read before `process` is called); the first chunk's emission
is `0.0` (the constructor's level), and the level of the final chunk is
never emitted: the emitted level list is the chunk-level list shifted
right by one and truncated to the number of chunks. -/
theorem offline_loop_levels_lag (ord : List (String × String))
    (recognize : List ℤ → Except String String) (s : ℕ) (t : Frac)
    (chunks : List (List ℤ)) :
    extractLevels (runOfflineLoop ord recognize ⟨vadNew s t, []⟩ chunks) =
      (Frac.ofInt 0 :: chunks.map chunkLevel).take chunks.length := by
  rw [runOfflineLoop_levels]
  rfl

end Vocalinux
